import Mathlib

/-!
Verification of the EPLMetadataGenerator specification against a shallow
embedding of `src/main.rs`.

The program is a one-shot batch tool: it reads a Maven metadata XML, reduces
the published full version strings to a table from "short" (authlib) version
to the best full version, orders the short versions by a composite numeric
score, fetches one artifact per short version, probes an injector URL, and
writes a JSON document.

External collaborators (HTTP transport, XML parsing primitives, the SHA-1
primitive, JSON pretty-printing) are out of scope per the specification and
are modelled as oracle parameters.  Rust panics (`unwrap` / `expect` /
integer-parse failures) are modelled as `none` / fatal outcomes; process
exit code 101 models a panic, 0 a normal return.
-/

/-! ## String primitives

`splitChar` mirrors Rust's `str::split(char)`: splitting the empty string
yields `[""]`, and separators at the ends produce empty fields.
-/

def splitChar (c : Char) : List Char → List (List Char)
  | [] => [[]]
  | a :: rest =>
    let r := splitChar c rest
    if a = c then [] :: r else (a :: r.headD []) :: r.tail

/-- Rust `s.split(c).collect::<Vec<_>>()`, as a list of strings. -/
def rsplit (c : Char) (s : String) : List String :=
  (splitChar c s.data).map (fun l => ⟨l⟩)

/-- `splitChar` never returns the empty list (Rust's `split` always yields
at least one field). -/
theorem splitChar_ne_nil (c : Char) (s : List Char) : splitChar c s ≠ [] := by
  cases s with
  | nil => simp [splitChar]
  | cons a rest =>
    simp only [splitChar]
    split <;> simp

/-- Rust's `str::replace("{}", rep)` specialised to the two-character
placeholder pattern used by the program: replaces every non-overlapping
occurrence of the placeholder, scanning left to right. -/
def replaceBracesAux (rep : List Char) : List Char → List Char
  | [] => []
  | [c] => [c]
  | c₁ :: c₂ :: rest =>
    if c₁ = '\x7b' ∧ c₂ = '\x7d' then rep ++ replaceBracesAux rep rest
    else c₁ :: replaceBracesAux rep (c₂ :: rest)

/-- `format.replace("{}", version)` from the source. -/
def replaceBraces (s rep : String) : String := ⟨replaceBracesAux rep.data s.data⟩

/-! ## Integer parsing

`parseI32` mirrors `str::parse::<i32>()`: an optional sign followed by at
least one decimal digit, with the value required to fit in a 32-bit signed
integer; anything else fails (and `.unwrap()` on the failure is a panic).
-/

def digitsToNat : List Char → Nat → Option Nat
  | [], acc => some acc
  | c :: cs, acc =>
    if c.isDigit then digitsToNat cs (acc * 10 + (c.toNat - 48)) else none

def parseI32 (s : String) : Option Int :=
  match s.data with
  | [] => none
  | '+' :: cs =>
    match cs with
    | [] => none
    | _ =>
      match digitsToNat cs 0 with
      | some n => if (n : Int) ≤ 2147483647 then some (n : Int) else none
      | none => none
  | '-' :: cs =>
    match cs with
    | [] => none
    | _ =>
      match digitsToNat cs 0 with
      | some n => if (n : Int) ≤ 2147483648 then some (-(n : Int)) else none
      | none => none
  | cs =>
    match digitsToNat cs 0 with
    | some n => if (n : Int) ≤ 2147483647 then some (n : Int) else none
    | none => none

/-! ## Version Resolver: the version table (src/main.rs lines 58-75) -/

/-- `full_version.split('-').collect::<Vec<_>>()[0]` — the Short Version. -/
def authlibVersionOf (fullVersion : String) : String :=
  (rsplit '-' fullVersion).headD ""

/-- `v.split('.').collect::<Vec<_>>().last().unwrap().parse::<i32>()` —
the patch number of a full version; `none` models the parse panic. -/
def patchNumberOf (v : String) : Option Int :=
  parseI32 ((rsplit '.' v).getLastD "")

/-- The patch number with default 0; only used where `patchNumberOf` is
known to succeed. -/
def patchD (v : String) : Int := (patchNumberOf v).getD 0

/-- The version table, modelling the contents of the
`authlib_versions_to_full_versions` hash map.  The list order is the
insertion order; the map's own iteration order is modelled separately. -/
abbrev VersionTable := List (String × String)

def tableLookup (k : String) (t : VersionTable) : Option String :=
  (t.find? (fun p => p.1 == k)).map (·.2)

def tableKeys (t : VersionTable) : List String := t.map (·.1)

/-- One iteration of the `for version in metadata_versions` loop:
look up the short version; if present, compare patch numbers (a failed
parse is a panic, modelled as `none`); a strictly greater incoming patch
evicts the stored entry, otherwise the incoming entry is discarded. -/
def tableInsertStep (t : VersionTable) (fullVersion : String) : Option VersionTable :=
  match t.find? (fun p => p.1 == authlibVersionOf fullVersion) with
  | some existing =>
    match patchNumberOf existing.2, patchNumberOf fullVersion with
    | some existingPatch, some newPatch =>
      if existingPatch < newPatch then
        some ((t.filter (fun q => q.1 != authlibVersionOf fullVersion)) ++
          [(authlibVersionOf fullVersion, fullVersion)])
      else
        some t
    | _, _ => none
  | none => some (t ++ [(authlibVersionOf fullVersion, fullVersion)])

def buildVersionTableAux (t : VersionTable) : List String → Option VersionTable
  | [] => some t
  | v :: vs =>
    match tableInsertStep t v with
    | none => none
    | some t' => buildVersionTableAux t' vs

/-- The whole table-building loop over the metadata versions in document
order. -/
def buildVersionTable (vs : List String) : Option VersionTable :=
  buildVersionTableAux [] vs

/-! ## Version Resolver: ordering (src/main.rs lines 77-89) -/

/-- The `i32` range check: Rust debug builds panic when the composite score
arithmetic leaves the `i32` range. -/
def i32chk (z : Int) : Option Int :=
  if -2147483648 ≤ z ∧ z ≤ 2147483647 then some z else none

/-- The sort key of a short version: `1_000_000 * major + 1_000 * minor
(+ patch when a third component exists)`.  `none` models the panics: a
missing second component (index out of bounds), a failed component parse,
or arithmetic leaving the `i32` range. -/
def versionScore (x : String) : Option Int := do
  let ns := rsplit '.' x
  let major ← parseI32 (ns.getD 0 "")
  let s₁ ← i32chk (1000000 * major)
  let n₁ ← ns.get? 1
  let minor ← parseI32 n₁
  let m ← i32chk (1000 * minor)
  let s₂ ← i32chk (s₁ + m)
  match ns.get? 2 with
  | some n₂ => do
    let patch ← parseI32 n₂
    i32chk (s₂ + patch)
  | none => pure s₂

def scoreD (x : String) : Int := (versionScore x).getD 0

/-- `a` may precede `b` in the output of
`sort_by_key(|x| Reverse(score(x)))`: descending by score. -/
def scoreGe (a b : String) : Prop := scoreD b ≤ scoreD a

instance : DecidableRel scoreGe := fun a b =>
  inferInstanceAs (Decidable (scoreD b ≤ scoreD a))

/-- The key sort.  Rust's `sort_by_key` is a stable sort; a slice of at
most one element evaluates no keys (so cannot panic), while for two or more
elements every element's key is evaluated, so any invalid key panics
(`none`).  `List.insertionSort` is stable, hence produces the same list as
Rust's stable sort for the same total preorder. -/
def sortAuthlibVersions (l : List String) : Option (List String) :=
  if l.length ≤ 1 then some l
  else if l.all (fun x => (versionScore x).isSome) then
    some (List.insertionSort scoreGe l)
  else none

/-! Sanity checks on concrete inputs. -/

example : authlibVersionOf "1.2.0-client" = "1.2.0" := by decide
example : patchNumberOf "1.2.0-client" = none := by decide
example : patchNumberOf "1.2.1" = some 1 := by decide
example : versionScore "1.2" = some 1002000 := by decide
example : versionScore "1.2.0" = some 1002000 := by decide
example : versionScore "1.3.0" = some 1003000 := by decide
example : buildVersionTable ["1.2.0", "1.2.1", "1.3.0"] =
    some [("1.2.0", "1.2.0"), ("1.2.1", "1.2.1"), ("1.3.0", "1.3.0")] := by decide
example : buildVersionTable ["1.2.0-ely.1", "1.2.0-ely.2"] =
    some [("1.2.0", "1.2.0-ely.2")] := by decide
example : buildVersionTable ["1.2.0", "1.2.0-client"] = none := by decide
example : sortAuthlibVersions ["1.2", "1.3"] = some ["1.3", "1.2"] := by decide
example : replaceBraces "u/\x7b\x7d.jar" "1.0.0" = "u/1.0.0.jar" := by decide

/-! ## XML model

XML parsing itself is an external collaborator (roxmltree); we model the
parsed tree and the traversal primitives the program uses: preorder
`descendants`, `children`, `has_tag_name`, and `Node::text` (which, for an
element, yields the text of its first child when that child is a text
node).  The tree uses a mutually inductive child list so that all
traversals are structurally recursive. -/

mutual
inductive Xml where
  | elem : String → XmlList → Xml
  | text : String → Xml
inductive XmlList where
  | nil : XmlList
  | cons : Xml → XmlList → XmlList
end

def xlist : List Xml → XmlList
  | [] => .nil
  | x :: xs => .cons x (xlist xs)

def XmlList.toList : XmlList → List Xml
  | .nil => []
  | .cons x xs => x :: xs.toList

mutual
/-- Preorder document-order traversal, starting at the node itself,
mirroring roxmltree's `descendants()`. -/
def Xml.descendants : Xml → List Xml
  | .text s => [.text s]
  | .elem t cs => .elem t cs :: XmlList.descendantsAll cs
def XmlList.descendantsAll : XmlList → List Xml
  | .nil => []
  | .cons x xs => x.descendants ++ XmlList.descendantsAll xs
end

def Xml.childNodes : Xml → List Xml
  | .elem _ cs => cs.toList
  | .text _ => []

def Xml.hasTagName (tag : String) : Xml → Bool
  | .elem t _ => t == tag
  | .text _ => false

/-- roxmltree `Node::text()`: a text node yields its own text; an element
yields its first child's text when that child is a text node. -/
def Xml.textOf : Xml → Option String
  | .text s => some s
  | .elem _ cs =>
    match cs.toList with
    | Xml.text s :: _ => some s
    | _ => none

/-- The element-path extraction `metadata → versioning → versions`
(src/main.rs lines 52-56); each failed `find` is an `unwrap` panic,
modelled as `none`.  On success, the `version` child elements in document
order. -/
def extractVersionNodes (doc : Xml) : Option (List Xml) :=
  match doc.descendants.find? (Xml.hasTagName "metadata") with
  | none => none
  | some m =>
    match m.childNodes.find? (Xml.hasTagName "versioning") with
    | none => none
    | some versioning =>
      match versioning.childNodes.find? (Xml.hasTagName "versions") with
      | none => none
      | some versions => some (versions.childNodes.filter (Xml.hasTagName "version"))

/-- `mapM` over `Option` by plain structural recursion: fails iff any
element fails. -/
def optMapList (f : α → Option β) : List α → Option (List β)
  | [] => some []
  | a :: xs =>
    match f a, optMapList f xs with
    | some b, some bs => some (b :: bs)
    | _, _ => none

/-! ## JSON model and pipeline data (src/main.rs lines 91-146) -/

inductive Json where
  | str : String → Json
  | num : Nat → Json
  | obj : List (String × Json) → Json

/-- The struct from the source. -/
structure LibraryOverrideMetadata where
  target_version : String
  name : String
  url : String
  sha1 : String
  size : Nat

/-- External collaborators, modelled as oracles: the HTTP transport
(metadata send+text, per-artifact fetch, injector probe), the XML parser,
the SHA-1 primitive rendered as lowercase hex, the JSON pretty-printer,
and the hash map's (arbitrary) key iteration order. -/
structure Oracles where
  /-- `GET metadata_url` then `.text()`: `none` = send failed,
  `some none` = text failed, `some (some body)` = success. -/
  metadataSend : Option (Option String)
  /-- `roxmltree::Document::parse`. -/
  parseXml : String → Option Xml
  /-- `GET url` then `.bytes()` for an artifact; `Except.error why` is the
  transport-level failure `why` (reqwest's error, which per the
  collaborator's contract covers whatever it reports as failure). -/
  artifactBytes : String → Except String (List Nat)
  /-- The `injector_download` future's result when awaited. -/
  injectorProbe : Except String Unit
  /-- `hex::encode(Sha1::digest(bytes))`. -/
  sha1hex : List Nat → String
  /-- `json::stringify_pretty(value, spaces)`. -/
  stringifyPretty : Json → Nat → String
  /-- The iteration order `HashMap::keys()` presents; sound models satisfy
  `keyPerm ks ~ ks`. -/
  keyPerm : List String → List String

/-- Observable result of one process run.  `exitCode` 0 models a normal
return from `main`, 101 a Rust panic.  `document` is the JSON value
serialized into the written file, when one is written. -/
structure Outcome where
  stderr : List String
  written : Option (String × String)
  document : Option Json
  exitCode : Nat
  networkUsed : Bool

def usageMessage : List String :=
  ["Not enough arguments, expected 4",
   "1) URL to Maven metadata XML",
   "2) Ely.by Authlib download URL format string (\x7b\x7d will be replaced with the version)",
   "3) authlib-injector download URL",
   "4) Output file name"]

/-- A panic (`expect` / `unwrap`) with the given diagnostic: nothing
written, exit code 101. -/
def panicOutcome (msg : String) : Outcome :=
  { stderr := [msg], written := none, document := none, exitCode := 101, networkUsed := true }

/-- The body of the `async move` block of the Artifact Collector for one
resolved (short version, full version) pair. -/
def collectArtifact (o : Oracles) (downloadFormat : String) (vf : String × String) :
    Except String LibraryOverrideMetadata :=
  let url := replaceBraces downloadFormat vf.2
  match o.artifactBytes url with
  | .error why => .error why
  | .ok response =>
    .ok { target_version := vf.1
          name := "by.ely:authlib:" ++ vf.2
          url := url
          sha1 := o.sha1hex response
          size := response.length }

def libMetaJson (m : LibraryOverrideMetadata) : Json :=
  .obj [("name", .str m.name), ("url", .str m.url),
        ("sha1", .str m.sha1), ("size", .num m.size)]

/-- The `overrides` object fields: one entry per successful fetch, keyed
by short version, in resolved order (the `Ok` arm of the result loop). -/
def overridesFields (rs : List (Except String LibraryOverrideMetadata)) :
    List (String × Json) :=
  rs.filterMap (fun r =>
    match r with
    | .ok m => some (m.target_version, libMetaJson m)
    | .error _ => none)

/-- The diagnostics of the `Err` arm of the result loop, in order. -/
def collectorDiags (rs : List (Except String LibraryOverrideMetadata)) : List String :=
  rs.filterMap (fun r =>
    match r with
    | .ok _ => none
    | .error why => some ("Couldn't create library metadata: " ++ why))

/-- The document after `json["overrides"]["com.mojang:authlib"] = overrides`
and `json["extras"]["authlib-injector"] = injector_download_url`. -/
def finalDoc (flds : List (String × Json)) (injectorUrl : String) : Json :=
  .obj [("overrides", .obj [("com.mojang:authlib", .obj flds)]),
        ("extras", .obj [("authlib-injector", .str injectorUrl)])]

/-- The whole `main` function as a function of the oracles and the
argument vector (`args[0]` is the program name, as with `env::args`). -/
def runMain (o : Oracles) (args : List String) : Outcome :=
  if args.length < 5 then
    { stderr := usageMessage, written := none, document := none,
      exitCode := 0, networkUsed := false }
  else
    let downloadFormat := args.getD 2 ""
    let injectorUrl := args.getD 3 ""
    let outputFile := args.getD 4 ""
    match o.metadataSend with
    | none => panicOutcome "Couldn't download Maven metadata"
    | some none => panicOutcome "Couldn't get text from metadata response"
    | some (some body) =>
      match o.parseXml body with
      | none => panicOutcome "Couldn't parse Maven metadata"
      | some doc =>
        match extractVersionNodes doc with
        | none => panicOutcome "called Option::unwrap() on a None value"
        | some nodes =>
          match optMapList Xml.textOf nodes with
          | none => panicOutcome "called Option::unwrap() on a None value"
          | some fullVersions =>
            match buildVersionTable fullVersions with
            | none => panicOutcome "invalid digit found in string"
            | some table =>
              match sortAuthlibVersions (o.keyPerm (tableKeys table)) with
              | none => panicOutcome "sort key panicked"
              | some sorted =>
                match optMapList
                    (fun v => (tableLookup v table).map (fun f => (v, f))) sorted with
                | none => panicOutcome "called Option::unwrap() on a None value"
                | some pairs =>
                  let results := pairs.map (collectArtifact o downloadFormat)
                  let flds := overridesFields results
                  let diags := collectorDiags results
                  match o.injectorProbe with
                  | .error why =>
                    { stderr := diags ++ ["Couldn't retrieve authlib-injector: " ++ why],
                      written := none, document := none, exitCode := 0, networkUsed := true }
                  | .ok _ =>
                    let doc := finalDoc flds injectorUrl
                    { stderr := diags,
                      written := some (outputFile, o.stringifyPretty doc 2),
                      document := some doc, exitCode := 0, networkUsed := true }

/-! ## Lemmas about the version table -/

theorem tableLookup_eq_none_iff (k : String) (t : VersionTable) :
    tableLookup k t = none ↔ k ∉ tableKeys t := by
  simp only [tableLookup, Option.map_eq_none', List.find?_eq_none, tableKeys, List.mem_map]
  constructor
  · rintro h ⟨q, hq, rfl⟩
    exact h q hq (by simp)
  · intro h q hq hbeq
    exact h ⟨q, hq, (beq_iff_eq.mp hbeq)⟩

theorem tableLookup_append (k : String) (t u : VersionTable) :
    tableLookup k (t ++ u) = (tableLookup k t).or (tableLookup k u) := by
  simp only [tableLookup, List.find?_append]
  cases t.find? (fun p => p.1 == k) <;> simp

theorem tableLookup_single (k k' v : String) :
    tableLookup k [(k', v)] = if k' = k then some v else none := by
  by_cases h : k' = k <;> simp [tableLookup, List.find?_cons, h]

theorem tableLookup_filter_ne (k k₀ : String) (t : VersionTable) :
    tableLookup k (t.filter (fun q => q.1 != k₀)) =
      if k = k₀ then none else tableLookup k t := by
  induction t with
  | nil => simp [tableLookup]
  | cons p t ih =>
    rw [List.filter_cons]
    by_cases hpk : p.1 = k
    · by_cases hk : k = k₀
      · have h1 : (p.1 != k₀) = false := by simp [hpk, hk]
        rw [h1]
        simpa [hk] using ih
      · have h1 : (p.1 != k₀) = true := by simp [hpk, hk]
        rw [h1]
        simp [tableLookup, List.find?_cons, hpk, hk]
    · have hfind : ∀ (l : VersionTable), tableLookup k (p :: l) = tableLookup k l := by
        intro l
        simp [tableLookup, List.find?_cons, show (p.1 == k) = false by simp [hpk]]
      by_cases hp : p.1 = k₀
      · have h1 : (p.1 != k₀) = false := by simp [hp]
        rw [h1]
        simp only [Bool.false_eq_true, if_false, ih, hfind]
      · have h1 : (p.1 != k₀) = true := by simp [hp]
        rw [h1]
        simp only [if_true, hfind, ih]

theorem tableKeys_append (t u : VersionTable) :
    tableKeys (t ++ u) = tableKeys t ++ tableKeys u := by
  simp [tableKeys]

theorem tableKeys_filter (k₀ : String) (t : VersionTable) :
    tableKeys (t.filter (fun q => q.1 != k₀)) = (tableKeys t).filter (fun k => k != k₀) := by
  induction t with
  | nil => rfl
  | cons p t ih =>
    by_cases h : p.1 = k₀ <;>
      simp_all [tableKeys, List.filter_cons, h]

/-! ## The Version Resolver invariant -/

/-- Well-formed input: every full version's final dot-separated component
parses as an `i32` (the spec assumes the source data well-formed; a failed
parse is a fatal error, settled separately). -/
def WFInput (vs : List String) : Prop := ∀ v ∈ vs, (patchNumberOf v).isSome

/-- Invariant of the table-building loop after processing the input prefix
`p`: keys are distinct; every processed version's short version is present;
and every entry holds the first-encountered full version achieving the
maximum patch number among processed versions sharing its short version. -/
def TableInv (p : List String) (t : VersionTable) : Prop :=
  (tableKeys t).Nodup ∧
  (∀ v ∈ p, (tableLookup (authlibVersionOf v) t).isSome) ∧
  (∀ k f, tableLookup k t = some f →
    f ∈ p ∧ authlibVersionOf f = k ∧
    (∀ g ∈ p, authlibVersionOf g = k → patchD g ≤ patchD f) ∧
    p.find? (fun g => (authlibVersionOf g == k) && (patchD g == patchD f)) = some f)

theorem tableInv_nil : TableInv [] [] := by
  refine ⟨List.nodup_nil, by simp, ?_⟩
  intro k f h
  simp [tableLookup] at h

theorem patchD_eq {w : String} {n : Int} (h : patchNumberOf w = some n) :
    patchD w = n := by
  simp [patchD, h]

theorem tableInsertStep_fresh {t : VersionTable} {v : String}
    (h : t.find? (fun q => q.1 == authlibVersionOf v) = none) :
    tableInsertStep t v = some (t ++ [(authlibVersionOf v, v)]) := by
  unfold tableInsertStep
  rw [h]

theorem tableInsertStep_evict {t : VersionTable} {v : String} {ex : String × String}
    {ep np : Int}
    (h : t.find? (fun q => q.1 == authlibVersionOf v) = some ex)
    (hep : patchNumberOf ex.2 = some ep) (hnp : patchNumberOf v = some np)
    (hlt : ep < np) :
    tableInsertStep t v =
      some ((t.filter (fun q => q.1 != authlibVersionOf v)) ++
        [(authlibVersionOf v, v)]) := by
  unfold tableInsertStep
  rw [h]
  dsimp only
  rw [hep, hnp]
  dsimp only
  rw [if_pos hlt]

theorem tableInsertStep_keep {t : VersionTable} {v : String} {ex : String × String}
    {ep np : Int}
    (h : t.find? (fun q => q.1 == authlibVersionOf v) = some ex)
    (hep : patchNumberOf ex.2 = some ep) (hnp : patchNumberOf v = some np)
    (hge : ¬ ep < np) :
    tableInsertStep t v = some t := by
  unfold tableInsertStep
  rw [h]
  dsimp only
  rw [hep, hnp]
  dsimp only
  rw [if_neg hge]

theorem tableInsertStep_inv {p : List String} {t : VersionTable} {v : String}
    (hinv : TableInv p t)
    (hwf : ∀ w ∈ p, (patchNumberOf w).isSome)
    (hv : (patchNumberOf v).isSome) :
    ∃ t', tableInsertStep t v = some t' ∧ TableInv (p ++ [v]) t' := by
  obtain ⟨hnd, hdom, hchar⟩ := hinv
  cases hfind : t.find? (fun q => q.1 == authlibVersionOf v) with
  | none =>
    have hlook : tableLookup (authlibVersionOf v) t = none := by
      simp [tableLookup, hfind]
    have hnotmem : authlibVersionOf v ∉ tableKeys t :=
      (tableLookup_eq_none_iff _ _).mp hlook
    have hshape : ∀ k, tableLookup k (t ++ [(authlibVersionOf v, v)]) =
        (tableLookup k t).or (if authlibVersionOf v = k then some v else none) := by
      intro k
      rw [tableLookup_append, tableLookup_single]
    refine ⟨t ++ [(authlibVersionOf v, v)], tableInsertStep_fresh hfind, ?_, ?_, ?_⟩
    · rw [tableKeys_append]
      refine List.Nodup.append hnd (List.nodup_singleton _) ?_
      intro a ha hb
      have hb : a = authlibVersionOf v := by simpa [tableKeys] using hb
      subst hb
      exact hnotmem ha
    · intro w hw
      rw [hshape]
      rcases List.mem_append.mp hw with hw | hw
      · have := hdom w hw
        cases hl : tableLookup (authlibVersionOf w) t with
        | none => rw [hl] at this; simp at this
        | some f => simp [hl]
      · have hw : w = v := by simpa using hw
        subst hw
        rw [hlook]
        simp
    · intro k f hf
      rw [hshape] at hf
      cases hk : tableLookup k t with
      | some f₀ =>
        rw [hk, Option.or_some] at hf
        obtain rfl : f₀ = f := by injection hf
        obtain ⟨hmem, hshort, hmax, hfirst⟩ := hchar k f₀ hk
        refine ⟨List.mem_append_left _ hmem, hshort, ?_, ?_⟩
        · intro g hg hgs
          rcases List.mem_append.mp hg with hg | hg
          · exact hmax g hg hgs
          · have hg : g = v := by simpa using hg
            subst hg
            rw [hgs, hk] at hlook
            exact Option.noConfusion hlook
        · rw [List.find?_append, hfirst, Option.or_some]
      | none =>
        rw [hk, Option.none_or] at hf
        by_cases hvk : authlibVersionOf v = k
        · rw [if_pos hvk] at hf
          obtain rfl : v = f := by injection hf
          refine ⟨List.mem_append_right _ (by simp), hvk, ?_, ?_⟩
          · intro g hg hgs
            rcases List.mem_append.mp hg with hg | hg
            · exfalso
              have := hdom g hg
              rw [hgs, hk] at this
              simp at this
            · have hg : g = v := by simpa using hg
              subst hg
              exact le_refl _
          · rw [List.find?_append]
            have h1 : p.find?
                (fun g => (authlibVersionOf g == k) && (patchD g == patchD v)) = none := by
              rw [List.find?_eq_none]
              intro g hg hpred
              have hgs : authlibVersionOf g = k := by
                have := (Bool.and_eq_true _ _).mp hpred
                exact beq_iff_eq.mp this.1
              have := hdom g hg
              rw [hgs, hk] at this
              simp at this
            rw [h1, Option.none_or]
            simp [List.find?_cons, hvk]
        · rw [if_neg hvk] at hf
          exact Option.noConfusion hf
  | some ex =>
    have hex1 : ex.1 = authlibVersionOf v := by
      have := List.find?_some hfind
      simpa using this
    have hlook : tableLookup (authlibVersionOf v) t = some ex.2 := by
      simp [tableLookup, hfind]
    have hexmem : ex.2 ∈ p := (hchar _ _ hlook).1
    obtain ⟨ep, hep⟩ := Option.isSome_iff_exists.mp (hwf ex.2 hexmem)
    obtain ⟨np, hnp⟩ := Option.isSome_iff_exists.mp hv
    have hmaxex := (hchar _ _ hlook).2.2.1
    by_cases hlt : ep < np
    · -- strictly greater incoming patch: evict
      have hshape : ∀ k,
          tableLookup k ((t.filter (fun q => q.1 != authlibVersionOf v)) ++
            [(authlibVersionOf v, v)]) =
          if k = authlibVersionOf v then some v else tableLookup k t := by
        intro k
        rw [tableLookup_append, tableLookup_filter_ne, tableLookup_single]
        by_cases hk : k = authlibVersionOf v
        · rw [if_pos hk, if_pos hk, if_pos hk.symm, Option.none_or]
        · rw [if_neg hk, if_neg hk, if_neg (fun h => hk h.symm), Option.or_none]
      refine ⟨_, tableInsertStep_evict hfind hep hnp hlt, ?_, ?_, ?_⟩
      · rw [tableKeys_append, tableKeys_filter]
        refine List.Nodup.append (hnd.filter _) (List.nodup_singleton _) ?_
        intro a ha hb
        have hb : a = authlibVersionOf v := by simpa [tableKeys] using hb
        subst hb
        have := (List.mem_filter.mp ha).2
        simp at this
      · intro w hw
        rw [hshape]
        rcases List.mem_append.mp hw with hw | hw
        · by_cases hws : authlibVersionOf w = authlibVersionOf v
          · rw [if_pos hws]; simp
          · rw [if_neg hws]; exact hdom w hw
        · have hw : w = v := by simpa using hw
          subst hw
          rw [if_pos rfl]; simp
      · intro k f hf
        rw [hshape] at hf
        by_cases hk : k = authlibVersionOf v
        · rw [if_pos hk] at hf
          obtain rfl : v = f := by injection hf
          subst hk
          refine ⟨List.mem_append_right _ (by simp), rfl, ?_, ?_⟩
          · intro g hg hgs
            rcases List.mem_append.mp hg with hg | hg
            · have h1 : patchD g ≤ patchD ex.2 := hmaxex g hg hgs
              rw [patchD_eq hep] at h1
              rw [patchD_eq hnp]
              exact le_trans h1 (le_of_lt hlt)
            · have hg : g = v := by simpa using hg
              subst hg
              exact le_refl _
          · rw [List.find?_append]
            have h1 : p.find? (fun g =>
                (authlibVersionOf g == authlibVersionOf v) && (patchD g == patchD v)) =
                none := by
              rw [List.find?_eq_none]
              intro g hg hpred
              have hconj := (Bool.and_eq_true _ _).mp hpred
              have hgs : authlibVersionOf g = authlibVersionOf v := beq_iff_eq.mp hconj.1
              have hgp : patchD g = patchD v := beq_iff_eq.mp hconj.2
              have h2 : patchD g ≤ patchD ex.2 := hmaxex g hg hgs
              rw [patchD_eq hep] at h2
              rw [hgp, patchD_eq hnp] at h2
              exact absurd (lt_of_lt_of_le hlt h2) (lt_irrefl _)
            rw [h1, Option.none_or]
            simp [List.find?_cons]
        · rw [if_neg hk] at hf
          obtain ⟨hmem, hshort, hmax, hfirst⟩ := hchar k f hf
          refine ⟨List.mem_append_left _ hmem, hshort, ?_, ?_⟩
          · intro g hg hgs
            rcases List.mem_append.mp hg with hg | hg
            · exact hmax g hg hgs
            · have hg : g = v := by simpa using hg
              subst hg
              exact absurd hgs.symm hk
          · rw [List.find?_append, hfirst, Option.or_some]
    · -- equal or lower incoming patch: discard
      refine ⟨t, tableInsertStep_keep hfind hep hnp hlt, hnd, ?_, ?_⟩
      · intro w hw
        rcases List.mem_append.mp hw with hw | hw
        · exact hdom w hw
        · have hw : w = v := by simpa using hw
          subst hw
          rw [hlook]
          simp
      · intro k f hf
        obtain ⟨hmem, hshort, hmax, hfirst⟩ := hchar k f hf
        refine ⟨List.mem_append_left _ hmem, hshort, ?_, ?_⟩
        · intro g hg hgs
          rcases List.mem_append.mp hg with hg | hg
          · exact hmax g hg hgs
          · have hg : g = v := by simpa using hg
            subst hg
            have hkey : f = ex.2 := by
              rw [hgs] at hlook
              rw [hf] at hlook
              injection hlook
            rw [hkey, patchD_eq hep, patchD_eq hnp]
            exact le_of_not_lt hlt
        · rw [List.find?_append, hfirst, Option.or_some]

theorem buildVersionTableAux_inv :
    ∀ (rest : List String) (t : VersionTable) (p : List String),
      TableInv p t → (∀ v ∈ p ++ rest, (patchNumberOf v).isSome) →
      ∃ t', buildVersionTableAux t rest = some t' ∧ TableInv (p ++ rest) t'
  | [], t, p, hinv, _ => ⟨t, rfl, by simpa using hinv⟩
  | v :: rest, t, p, hinv, hwf => by
    have hv : (patchNumberOf v).isSome := hwf v (by simp)
    have hwp : ∀ w ∈ p, (patchNumberOf w).isSome := fun w hw =>
      hwf w (List.mem_append_left _ hw)
    obtain ⟨t₁, hstep, hinv₁⟩ := tableInsertStep_inv hinv hwp hv
    have hwf₁ : ∀ w ∈ (p ++ [v]) ++ rest, (patchNumberOf w).isSome := by
      intro w hw
      apply hwf
      simpa [List.append_assoc] using hw
    obtain ⟨t', hrun, hinv'⟩ := buildVersionTableAux_inv rest t₁ (p ++ [v]) hinv₁ hwf₁
    refine ⟨t', ?_, ?_⟩
    · unfold buildVersionTableAux
      rw [hstep]
      exact hrun
    · simpa [List.append_assoc] using hinv'

/-- C1: for well-formed input (every full version's final dot-separated
component parses as an integer), the table-building loop succeeds and maps
each occurring Short Version to exactly one Full Version: one sharing that
Short Version, whose patch number is maximal among all input versions
sharing it, and which is the first-encountered input entry achieving that
patch number (so an exact tie keeps the earlier entry). -/
theorem C1_version_table_resolves_to_max (vs : List String)
    (hwf : ∀ v ∈ vs, (patchNumberOf v).isSome) :
    ∃ t, buildVersionTable vs = some t ∧
      (∀ v ∈ vs, (tableLookup (authlibVersionOf v) t).isSome) ∧
      (∀ k f, tableLookup k t = some f →
        f ∈ vs ∧ authlibVersionOf f = k ∧
        (∀ g ∈ vs, authlibVersionOf g = k → patchD g ≤ patchD f) ∧
        vs.find? (fun g => (authlibVersionOf g == k) && (patchD g == patchD f)) =
          some f) := by
  obtain ⟨t, hrun, hinv⟩ :=
    buildVersionTableAux_inv vs [] [] tableInv_nil (by simpa using hwf)
  rw [List.nil_append] at hinv
  exact ⟨t, hrun, hinv.2.1, hinv.2.2⟩

/-- Witness for C1 at the concrete input `["1.0.0"]`. -/
theorem C1_version_table_resolves_to_max_witness :
    (∀ v ∈ ["1.0.0"], (patchNumberOf v).isSome) ∧
    (∃ t, buildVersionTable ["1.0.0"] = some t ∧
      (∀ v ∈ ["1.0.0"], (tableLookup (authlibVersionOf v) t).isSome) ∧
      (∀ k f, tableLookup k t = some f →
        f ∈ ["1.0.0"] ∧ authlibVersionOf f = k ∧
        (∀ g ∈ ["1.0.0"], authlibVersionOf g = k → patchD g ≤ patchD f) ∧
        (["1.0.0"] : List String).find?
          (fun g => (authlibVersionOf g == k) && (patchD g == patchD f)) = some f)) :=
  ⟨by decide, C1_version_table_resolves_to_max ["1.0.0"] (by decide)⟩

/-! ## Lemmas about the ordering step -/

instance : IsTotal String scoreGe := ⟨fun a b => le_total (scoreD b) (scoreD a)⟩

instance : IsTrans String scoreGe := ⟨fun _ _ _ h₁ h₂ => le_trans h₂ h₁⟩

theorem sortAuthlibVersions_perm {l out : List String}
    (h : sortAuthlibVersions l = some out) : out.Perm l := by
  unfold sortAuthlibVersions at h
  split at h
  · injection h with h
    subst h
    exact List.Perm.refl l
  · split at h
    · injection h with h
      subst h
      exact List.perm_insertionSort scoreGe l
    · exact Option.noConfusion h

theorem sortAuthlibVersions_sorted {l out : List String}
    (h : sortAuthlibVersions l = some out) : out.Pairwise scoreGe := by
  unfold sortAuthlibVersions at h
  split at h
  case isTrue hlen =>
    injection h with h
    subst h
    cases l with
    | nil => exact List.Pairwise.nil
    | cons a l' =>
      cases l' with
      | nil => simp
      | cons b l'' => simp at hlen
  case isFalse =>
    split at h
    · injection h with h
      subst h
      exact List.sorted_insertionSort scoreGe l
    · exact Option.noConfusion h

/-- Two sorted lists that are permutations of one another and on whose
elements the (total, transitive) relation is antisymmetric are equal. -/
theorem pairwise_perm_eq {α : Type} {r : α → α → Prop} :
    ∀ {l₁ l₂ : List α},
      (∀ x ∈ l₁, ∀ y ∈ l₁, r x y → r y x → x = y) →
      l₁.Perm l₂ → l₁.Pairwise r → l₂.Pairwise r → l₁ = l₂
  | [], l₂, _, hp, _, _ => hp.nil_eq
  | a :: t₁, l₂, anti, hp, s₁, s₂ => by
    cases l₂ with
    | nil => simpa using hp.length_eq
    | cons b t₂ =>
      by_cases hab : a = b
      · subst hab
        have e : t₁ = t₂ :=
          pairwise_perm_eq
            (fun x hx y hy => anti x (List.mem_cons_of_mem _ hx) y (List.mem_cons_of_mem _ hy))
            hp.cons_inv s₁.of_cons s₂.of_cons
        rw [e]
      · exfalso
        have hbmem : b ∈ a :: t₁ := hp.symm.subset (by simp)
        have hamem : a ∈ b :: t₂ := hp.subset (by simp)
        have hbt₁ : b ∈ t₁ := by
          rcases List.mem_cons.mp hbmem with hb | hb
          · exact absurd hb.symm hab
          · exact hb
        have hat₂ : a ∈ t₂ := by
          rcases List.mem_cons.mp hamem with ha | ha
          · exact absurd ha hab
          · exact ha
        have hrab : r a b := (List.pairwise_cons.mp s₁).1 b hbt₁
        have hrba : r b a := (List.pairwise_cons.mp s₂).1 a hat₂
        exact hab (anti a (by simp) b (List.mem_cons_of_mem _ hbt₁) hrab hrba)

/-- The key sort is insensitive to the presentation order of its input when
all composite scores are pairwise distinct. -/
theorem sortAuthlibVersions_eq_of_perm {k₁ k₂ : List String}
    (hp : k₁.Perm k₂)
    (hinj : ∀ x ∈ k₁, ∀ y ∈ k₁, scoreD x = scoreD y → x = y) :
    sortAuthlibVersions k₁ = sortAuthlibVersions k₂ := by
  by_cases hlen : k₁.length ≤ 1
  · have he : k₁ = k₂ := by
      cases k₁ with
      | nil => exact hp.nil_eq
      | cons a l' =>
        cases l' with
        | nil => exact List.singleton_perm.mp hp
        | cons b l'' => simp at hlen
    rw [he]
  · have hlen₂ : ¬ k₂.length ≤ 1 := by rw [← hp.length_eq]; exact hlen
    by_cases hall : k₁.all (fun x => (versionScore x).isSome) = true
    · have hall₂ : k₂.all (fun x => (versionScore x).isSome) = true := by
        rw [List.all_eq_true] at hall ⊢
        intro x hx
        exact hall x (hp.symm.subset hx)
      unfold sortAuthlibVersions
      rw [if_neg hlen, if_neg hlen₂, if_pos hall, if_pos hall₂]
      congr 1
      apply pairwise_perm_eq
      · intro x hx y hy hxy hyx
        have hx' : x ∈ k₁ := (List.perm_insertionSort scoreGe k₁).subset hx
        have hy' : y ∈ k₁ := (List.perm_insertionSort scoreGe k₁).subset hy
        exact hinj x hx' y hy' (le_antisymm hyx hxy)
      · exact ((List.perm_insertionSort scoreGe k₁).trans hp).trans
          (List.perm_insertionSort scoreGe k₂).symm
      · exact List.sorted_insertionSort scoreGe k₁
      · exact List.sorted_insertionSort scoreGe k₂
    · have hall₂ : ¬ k₂.all (fun x => (versionScore x).isSome) = true := by
        intro hc
        apply hall
        rw [List.all_eq_true] at hc ⊢
        intro x hx
        exact hc x (hp.subset hx)
      unfold sortAuthlibVersions
      rw [if_neg hlen, if_neg hlen₂, if_neg hall, if_neg hall₂]

/-- C2: whenever the key sort completes, its output is a permutation of
the input ordered descending by the composite score
`1000000*major + 1000*minor + patch` (so any element with a strictly
higher score precedes any element with a lower one), and a short version
with no third component receives the same ordering key as one with an
explicit `.0` patch: `"1.2"` and `"1.2.0"` score identically. -/
theorem C2_sort_descending_by_composite_score {l out : List String}
    (h : sortAuthlibVersions l = some out) :
    out.Perm l ∧ out.Pairwise (fun a b => scoreD b ≤ scoreD a) ∧
      versionScore "1.2" = versionScore "1.2.0" :=
  ⟨sortAuthlibVersions_perm h, sortAuthlibVersions_sorted h, by decide⟩

/-- Witness for C2 at the concrete input `["1.2", "1.3"]`. -/
theorem C2_sort_descending_by_composite_score_witness :
    sortAuthlibVersions ["1.2", "1.3"] = some ["1.3", "1.2"] ∧
    ((["1.3", "1.2"] : List String).Perm ["1.2", "1.3"] ∧
      (["1.3", "1.2"] : List String).Pairwise (fun a b => scoreD b ≤ scoreD a) ∧
      versionScore "1.2" = versionScore "1.2.0") :=
  ⟨by decide, C2_sort_descending_by_composite_score (by decide)⟩

/-- C8 counterexample: the two short versions `"1.2"` (from full version
`"1.2-a"`) and `"1.2.0"` are distinct keys with equal composite scores, so
the stable sort returns whichever order the hash map's iteration presented
— two legitimate iteration orders of the same table produce different
ordered lists. -/
theorem C8_counterexample :
    buildVersionTable ["1.2-a", "1.2.0"] =
      some [("1.2", "1.2-a"), ("1.2.0", "1.2.0")] ∧
    (["1.2.0", "1.2"] : List String).Perm
      (tableKeys [("1.2", "1.2-a"), ("1.2.0", "1.2.0")]) ∧
    sortAuthlibVersions (tableKeys [("1.2", "1.2-a"), ("1.2.0", "1.2.0")]) =
      some ["1.2", "1.2.0"] ∧
    sortAuthlibVersions ["1.2.0", "1.2"] = some ["1.2.0", "1.2"] := by
  refine ⟨by decide, ?_, by decide, by decide⟩
  decide

/-- C8 amended: the table contents are a deterministic function of the
input sequence (the builder is a pure function), and the ordered short
version list is independent of the hash map's key iteration order
provided distinct short versions have distinct composite scores (ties
in the score across distinct keys are resolved by iteration order). -/
theorem C8_resolver_deterministic_of_distinct_scores {k₁ k₂ : List String}
    (hp : k₁.Perm k₂)
    (hinj : ∀ x ∈ k₁, ∀ y ∈ k₁, scoreD x = scoreD y → x = y) :
    sortAuthlibVersions k₁ = sortAuthlibVersions k₂ :=
  sortAuthlibVersions_eq_of_perm hp hinj

/-- Witness for the amended C8 at two concrete iteration orders. -/
theorem C8_resolver_deterministic_witness :
    (["1.2", "1.3"] : List String).Perm ["1.3", "1.2"] ∧
    sortAuthlibVersions ["1.2", "1.3"] = sortAuthlibVersions ["1.3", "1.2"] :=
  ⟨by decide, C8_resolver_deterministic_of_distinct_scores (by decide) (by decide)⟩

theorem versionScore_none_of_short {k : String} (h : (rsplit '.' k).length < 2) :
    versionScore k = none := by
  have h1 : (rsplit '.' k)[1]? = none := by
    rw [List.getElem?_eq_none_iff]
    omega
  cases hmaj : parseI32 ((rsplit '.' k)[0]?.getD "") with
  | none => simp [versionScore, hmaj]
  | some major =>
    cases hchk : i32chk (1000000 * major) with
    | none => simp [versionScore, hmaj, hchk]
    | some s₁ => simp [versionScore, hmaj, hchk, h1]

/-- C10 counterexample: with the single published version `"5"` the short
version `"5"` has one dot-separated component, yet the resolver completes
and produces the ordering `["5"]` — a one-element key list is never
compared, so its key is never computed and nothing panics. -/
theorem C10_counterexample :
    buildVersionTable ["5"] = some [("5", "5")] ∧
    (rsplit '.' "5").length < 2 ∧
    sortAuthlibVersions (tableKeys [("5", "5")]) = some ["5"] := by
  decide

/-- C10 amended: when the key list reaching the sort has at least two
entries and some key has fewer than two dot-separated components, the
ordering step panics (out-of-bounds access to the second component)
instead of producing an ordering. -/
theorem C10_sort_panics_on_short_key {ks : List String}
    (hlen : 2 ≤ ks.length) (hbad : ∃ k ∈ ks, (rsplit '.' k).length < 2) :
    sortAuthlibVersions ks = none := by
  obtain ⟨k, hk, hklen⟩ := hbad
  have hnall : ¬ (ks.all (fun x => (versionScore x).isSome) = true) := by
    rw [List.all_eq_true]
    intro hc
    have := hc k hk
    rw [versionScore_none_of_short hklen] at this
    simp at this
  unfold sortAuthlibVersions
  rw [if_neg (by omega), if_neg hnall]

/-- Witness for the amended C10 at the concrete key list `["5", "6"]`. -/
theorem C10_sort_panics_on_short_key_witness :
    2 ≤ (["5", "6"] : List String).length ∧
    (∃ k ∈ (["5", "6"] : List String), (rsplit '.' k).length < 2) ∧
    sortAuthlibVersions ["5", "6"] = none :=
  ⟨by decide, by decide, C10_sort_panics_on_short_key (by decide) (by decide)⟩

/-- C5 counterexample: on the spec's example input the table keys are the
full pre-hyphen prefixes `"1.2.0"`, `"1.2.1"`, `"1.3.0"`; the claimed keys
`"1.2"` and `"1.3"` are absent, and the ordered list is
`["1.3.0", "1.2.1", "1.2.0"]`, not `["1.3", "1.2"]`. -/
theorem C5_counterexample :
    buildVersionTable ["1.2.0-client", "1.2.1-client", "1.3.0"] =
      some [("1.2.0", "1.2.0-client"), ("1.2.1", "1.2.1-client"), ("1.3.0", "1.3.0")] ∧
    tableLookup "1.2"
      [("1.2.0", "1.2.0-client"), ("1.2.1", "1.2.1-client"), ("1.3.0", "1.3.0")] = none ∧
    tableLookup "1.3"
      [("1.2.0", "1.2.0-client"), ("1.2.1", "1.2.1-client"), ("1.3.0", "1.3.0")] = none ∧
    sortAuthlibVersions
      (tableKeys [("1.2.0", "1.2.0-client"), ("1.2.1", "1.2.1-client"), ("1.3.0", "1.3.0")]) =
      some ["1.3.0", "1.2.1", "1.2.0"] := by
  decide

/-- C5 amended: on the input `["1.2.0-client", "1.2.1-client", "1.3.0"]`
the Version Resolver completes without a fatal error, but the Version
Table maps each full pre-hyphen prefix to its full version —
`{"1.2.0": "1.2.0-client", "1.2.1": "1.2.1-client", "1.3.0": "1.3.0"}` —
and the ordered short version list is `["1.3.0", "1.2.1", "1.2.0"]`
under every key iteration order. -/
theorem C5_resolver_on_spec_example (ks : List String)
    (hks : ks.Perm ["1.2.0", "1.2.1", "1.3.0"]) :
    buildVersionTable ["1.2.0-client", "1.2.1-client", "1.3.0"] =
      some [("1.2.0", "1.2.0-client"), ("1.2.1", "1.2.1-client"), ("1.3.0", "1.3.0")] ∧
    sortAuthlibVersions ks = some ["1.3.0", "1.2.1", "1.2.0"] := by
  refine ⟨by decide, ?_⟩
  have hinjc : ∀ x ∈ (["1.2.0", "1.2.1", "1.3.0"] : List String),
      ∀ y ∈ (["1.2.0", "1.2.1", "1.3.0"] : List String),
      scoreD x = scoreD y → x = y := by decide
  have he := sortAuthlibVersions_eq_of_perm hks
    (fun x hx y hy => hinjc x (hks.subset hx) y (hks.subset hy))
  rw [he]
  decide

/-- Witness for the amended C5 at the insertion-order key list. -/
theorem C5_resolver_on_spec_example_witness :
    (["1.2.0", "1.2.1", "1.3.0"] : List String).Perm ["1.2.0", "1.2.1", "1.3.0"] ∧
    (buildVersionTable ["1.2.0-client", "1.2.1-client", "1.3.0"] =
      some [("1.2.0", "1.2.0-client"), ("1.2.1", "1.2.1-client"), ("1.3.0", "1.3.0")] ∧
    sortAuthlibVersions ["1.2.0", "1.2.1", "1.3.0"] =
      some ["1.3.0", "1.2.1", "1.2.0"]) :=
  ⟨by decide, C5_resolver_on_spec_example _ (by decide)⟩

/-! ## Reduction lemmas for the whole pipeline -/

theorem runMain_usage {o : Oracles} {args : List String} (h : args.length < 5) :
    runMain o args =
      { stderr := usageMessage, written := none, document := none,
        exitCode := 0, networkUsed := false } := by
  unfold runMain
  rw [if_pos h]

theorem runMain_success_outcome {o : Oracles} {args : List String} {body : String}
    {doc : Xml} {nodes : List Xml} {fulls : List String} {table : VersionTable}
    {sorted : List String} {pairs : List (String × String)} {u : Unit}
    (h5 : ¬ args.length < 5)
    (hm : o.metadataSend = some (some body))
    (hx : o.parseXml body = some doc)
    (he : extractVersionNodes doc = some nodes)
    (ht : optMapList Xml.textOf nodes = some fulls)
    (hb : buildVersionTable fulls = some table)
    (hs : sortAuthlibVersions (o.keyPerm (tableKeys table)) = some sorted)
    (hp : optMapList (fun v => (tableLookup v table).map (fun f => (v, f))) sorted =
      some pairs)
    (hi : o.injectorProbe = .ok u) :
    runMain o args =
      { stderr := collectorDiags (pairs.map (collectArtifact o (args.getD 2 ""))),
        written := some (args.getD 4 "", o.stringifyPretty
          (finalDoc (overridesFields (pairs.map (collectArtifact o (args.getD 2 ""))))
            (args.getD 3 "")) 2),
        document := some
          (finalDoc (overridesFields (pairs.map (collectArtifact o (args.getD 2 ""))))
            (args.getD 3 "")),
        exitCode := 0, networkUsed := true } := by
  unfold runMain
  rw [if_neg h5]
  dsimp only
  rw [hm]
  dsimp only
  rw [hx]
  dsimp only
  rw [he]
  dsimp only
  rw [ht]
  dsimp only
  rw [hb]
  dsimp only
  rw [hs]
  dsimp only
  rw [hp]
  dsimp only
  rw [hi]

theorem runMain_injector_fail_outcome {o : Oracles} {args : List String} {body : String}
    {doc : Xml} {nodes : List Xml} {fulls : List String} {table : VersionTable}
    {sorted : List String} {pairs : List (String × String)} {why : String}
    (h5 : ¬ args.length < 5)
    (hm : o.metadataSend = some (some body))
    (hx : o.parseXml body = some doc)
    (he : extractVersionNodes doc = some nodes)
    (ht : optMapList Xml.textOf nodes = some fulls)
    (hb : buildVersionTable fulls = some table)
    (hs : sortAuthlibVersions (o.keyPerm (tableKeys table)) = some sorted)
    (hp : optMapList (fun v => (tableLookup v table).map (fun f => (v, f))) sorted =
      some pairs)
    (hi : o.injectorProbe = .error why) :
    runMain o args =
      { stderr := collectorDiags (pairs.map (collectArtifact o (args.getD 2 ""))) ++
          ["Couldn't retrieve authlib-injector: " ++ why],
        written := none, document := none, exitCode := 0, networkUsed := true } := by
  unfold runMain
  rw [if_neg h5]
  dsimp only
  rw [hm]
  dsimp only
  rw [hx]
  dsimp only
  rw [he]
  dsimp only
  rw [ht]
  dsimp only
  rw [hb]
  dsimp only
  rw [hs]
  dsimp only
  rw [hp]
  dsimp only
  rw [hi]

/-! ## Concrete sample oracles for witnesses -/

def sampleXmlDoc : Xml :=
  .elem "metadata" (xlist
    [.elem "versioning" (xlist
      [.elem "versions" (xlist
        [.elem "version" (xlist [.text "1.0.0"]),
         .elem "version" (xlist [.text "2.0.0"])])])])

def sampleArgs : List String :=
  ["prog", "http://repo/maven-metadata.xml", "u/\x7b\x7d.jar", "http://inj", "out.json"]

def oracleOk : Oracles where
  metadataSend := some (some "xmlbody")
  parseXml := fun _ => some sampleXmlDoc
  artifactBytes := fun url => if url = "u/1.0.0.jar" then .error "boom" else .ok [7, 8]
  injectorProbe := .ok ()
  sha1hex := fun _ => "deadbeef"
  stringifyPretty := fun _ _ => "serialized"
  keyPerm := id

def oracleInjectorFail : Oracles :=
  { oracleOk with injectorProbe := .error "probe failed" }

def oracleMetadataFail : Oracles :=
  { oracleOk with metadataSend := none }

/-- An oracle in which the artifact request for `"1.0.0"` is answered with
a non-success HTTP response (think 404) whose body is the three bytes
`"404"`.  The source (src/main.rs line 96) runs
`client.get(&url).send().await?.bytes().await?` and never inspects the
response status (`error_for_status` is never called), so per reqwest's
contract such a response is an `Ok` fetch carrying the error page's
bytes — which is how it enters this model. -/
def oracleNotFound : Oracles :=
  { oracleOk with
      artifactBytes := fun url =>
        if url = "u/1.0.0.jar" then .ok [52, 48, 52] else .ok [7, 8] }

/-- C7: any Metadata Fetcher failure — a failed send, a failed text read,
a body that does not parse as XML, or a missing
`metadata → versioning → versions` element path — terminates the process
as a panic, with a diagnostic, before any output file is produced. -/
theorem C7_metadata_failure_fatal (o : Oracles) (args : List String)
    (h5 : ¬ args.length < 5)
    (hfail : o.metadataSend = none ∨ o.metadataSend = some none ∨
      ∃ body, o.metadataSend = some (some body) ∧
        (o.parseXml body = none ∨
          ∃ doc, o.parseXml body = some doc ∧ extractVersionNodes doc = none)) :
    (runMain o args).written = none ∧ (runMain o args).document = none ∧
      (runMain o args).exitCode = 101 ∧ (runMain o args).stderr ≠ [] := by
  have key : ∃ m, runMain o args = panicOutcome m := by
    rcases hfail with hm | hm | ⟨body, hm, hrest⟩
    · refine ⟨"Couldn't download Maven metadata", ?_⟩
      unfold runMain
      rw [if_neg h5]
      dsimp only
      rw [hm]
    · refine ⟨"Couldn't get text from metadata response", ?_⟩
      unfold runMain
      rw [if_neg h5]
      dsimp only
      rw [hm]
    · rcases hrest with hx | ⟨doc, hx, he⟩
      · refine ⟨"Couldn't parse Maven metadata", ?_⟩
        unfold runMain
        rw [if_neg h5]
        dsimp only
        rw [hm]
        dsimp only
        rw [hx]
      · refine ⟨"called Option::unwrap() on a None value", ?_⟩
        unfold runMain
        rw [if_neg h5]
        dsimp only
        rw [hm]
        dsimp only
        rw [hx]
        dsimp only
        rw [he]
  obtain ⟨m, hkey⟩ := key
  rw [hkey]
  exact ⟨rfl, rfl, rfl, by simp [panicOutcome]⟩

/-- Witness for C7 with a failing metadata send. -/
theorem C7_metadata_failure_fatal_witness :
    ¬ (sampleArgs.length < 5) ∧
    oracleMetadataFail.metadataSend = none ∧
    ((runMain oracleMetadataFail sampleArgs).written = none ∧
      (runMain oracleMetadataFail sampleArgs).document = none ∧
      (runMain oracleMetadataFail sampleArgs).exitCode = 101 ∧
      (runMain oracleMetadataFail sampleArgs).stderr ≠ []) :=
  ⟨by decide, rfl,
    C7_metadata_failure_fatal oracleMetadataFail sampleArgs (by decide) (Or.inl rfl)⟩

/-- C9 amended: with fewer than 4 positional arguments the process prints
the five-line usage message to the error stream (one "not enough
arguments" line plus four numbered lines), performs no network calls,
writes no file, and returns normally without signaling an error code. -/
theorem C9_usage_on_too_few_arguments (o : Oracles) (args : List String)
    (h : args.length < 5) :
    runMain o args =
      { stderr := usageMessage, written := none, document := none,
        exitCode := 0, networkUsed := false } ∧
    usageMessage.length = 5 :=
  ⟨runMain_usage h, rfl⟩

/-- C9 counterexample: the usage message has five lines, not four. -/
theorem C9_counterexample :
    (runMain oracleOk ["prog"]).stderr.length = 5 ∧
    ¬ (runMain oracleOk ["prog"]).stderr.length = 4 ∧
    (runMain oracleOk ["prog"]).written = none ∧
    (runMain oracleOk ["prog"]).exitCode = 0 ∧
    (runMain oracleOk ["prog"]).networkUsed = false := by
  decide

/-- Witness for the amended C9 at a one-element argument vector. -/
theorem C9_usage_on_too_few_arguments_witness :
    (["prog"] : List String).length < 5 ∧
    (runMain oracleOk ["prog"] =
      { stderr := usageMessage, written := none, document := none,
        exitCode := 0, networkUsed := false } ∧
      usageMessage.length = 5) :=
  ⟨by decide, C9_usage_on_too_few_arguments oracleOk ["prog"] (by decide)⟩

/-- C3 amended: when the front of the pipeline succeeds and the injector
probe fails, the process emits the probe diagnostic, writes no output
file (so no extras field is ever emitted), and returns normally — the
exit signals success (code 0), not failure. -/
theorem C3_injector_failure_aborts_without_file (o : Oracles) (args : List String)
    {body : String} {doc : Xml} {nodes : List Xml} {fulls : List String}
    {table : VersionTable} {sorted : List String} {pairs : List (String × String)}
    {why : String}
    (h5 : ¬ args.length < 5)
    (hm : o.metadataSend = some (some body))
    (hx : o.parseXml body = some doc)
    (he : extractVersionNodes doc = some nodes)
    (ht : optMapList Xml.textOf nodes = some fulls)
    (hb : buildVersionTable fulls = some table)
    (hs : sortAuthlibVersions (o.keyPerm (tableKeys table)) = some sorted)
    (hp : optMapList (fun v => (tableLookup v table).map (fun f => (v, f))) sorted =
      some pairs)
    (hi : o.injectorProbe = .error why) :
    (runMain o args).written = none ∧ (runMain o args).document = none ∧
      (runMain o args).exitCode = 0 ∧
      ("Couldn't retrieve authlib-injector: " ++ why) ∈ (runMain o args).stderr := by
  rw [runMain_injector_fail_outcome h5 hm hx he ht hb hs hp hi]
  exact ⟨rfl, rfl, rfl, by simp⟩

/-- C3 counterexample: a full concrete run in which the injector probe
fails — the diagnostic is emitted and no file is written, but the process
exits with code 0, not a non-zero failure signal. -/
theorem C3_counterexample :
    (runMain oracleInjectorFail sampleArgs).written = none ∧
    ("Couldn't retrieve authlib-injector: probe failed") ∈
      (runMain oracleInjectorFail sampleArgs).stderr ∧
    (runMain oracleInjectorFail sampleArgs).exitCode = 0 := by
  decide

/-- Witness for the amended C3 on the concrete failing-probe oracle. -/
theorem C3_injector_failure_witness :
    ¬ (sampleArgs.length < 5) ∧
    oracleInjectorFail.injectorProbe = Except.error "probe failed" ∧
    ((runMain oracleInjectorFail sampleArgs).written = none ∧
      (runMain oracleInjectorFail sampleArgs).document = none ∧
      (runMain oracleInjectorFail sampleArgs).exitCode = 0 ∧
      ("Couldn't retrieve authlib-injector: " ++ "probe failed") ∈
        (runMain oracleInjectorFail sampleArgs).stderr) :=
  ⟨by decide, rfl,
    C3_injector_failure_aborts_without_file oracleInjectorFail sampleArgs
      (by decide) rfl rfl rfl rfl rfl rfl rfl rfl⟩

/-! ## Key uniqueness along the pipeline -/

theorem tableInsertStep_nodup {t t' : VersionTable} {v : String}
    (h : tableInsertStep t v = some t') (hnd : (tableKeys t).Nodup) :
    (tableKeys t').Nodup := by
  unfold tableInsertStep at h
  cases hfind : t.find? (fun q => q.1 == authlibVersionOf v) with
  | none =>
    rw [hfind] at h
    dsimp only at h
    injection h with h
    subst h
    rw [tableKeys_append]
    refine List.Nodup.append hnd (List.nodup_singleton _) ?_
    intro a ha hb
    have hb : a = authlibVersionOf v := by simpa [tableKeys] using hb
    subst hb
    have hnone : tableLookup (authlibVersionOf v) t = none := by
      simp [tableLookup, hfind]
    exact ((tableLookup_eq_none_iff _ _).mp hnone) ha
  | some ex =>
    rw [hfind] at h
    dsimp only at h
    cases hep : patchNumberOf ex.2 with
    | none =>
      rw [hep] at h
      exact Option.noConfusion h
    | some ep =>
      rw [hep] at h
      cases hnp : patchNumberOf v with
      | none =>
        rw [hnp] at h
        exact Option.noConfusion h
      | some np =>
        rw [hnp] at h
        dsimp only at h
        split at h
        · injection h with h
          subst h
          rw [tableKeys_append, tableKeys_filter]
          refine List.Nodup.append (hnd.filter _) (List.nodup_singleton _) ?_
          intro a ha hb
          have hb : a = authlibVersionOf v := by simpa [tableKeys] using hb
          subst hb
          have := (List.mem_filter.mp ha).2
          simp at this
        · injection h with h
          subst h
          exact hnd

theorem buildVersionTableAux_nodup :
    ∀ {rest : List String} {t t' : VersionTable},
      buildVersionTableAux t rest = some t' → (tableKeys t).Nodup →
      (tableKeys t').Nodup
  | [], t, t', h, hnd => by
    unfold buildVersionTableAux at h
    injection h with h
    subst h
    exact hnd
  | v :: rest, t, t', h, hnd => by
    unfold buildVersionTableAux at h
    cases hstep : tableInsertStep t v with
    | none =>
      rw [hstep] at h
      exact Option.noConfusion h
    | some t₁ =>
      rw [hstep] at h
      dsimp only at h
      exact buildVersionTableAux_nodup h (tableInsertStep_nodup hstep hnd)

theorem buildVersionTable_keys_nodup {vs : List String} {t : VersionTable}
    (h : buildVersionTable vs = some t) : (tableKeys t).Nodup :=
  buildVersionTableAux_nodup h (by simp [tableKeys])

theorem optMapList_pairs {t : VersionTable} :
    ∀ {l : List String} {ps : List (String × String)},
      optMapList (fun v => (tableLookup v t).map (fun f => (v, f))) l = some ps →
      ps.map Prod.fst = l ∧ ∀ p ∈ ps, tableLookup p.1 t = some p.2
  | [], ps, h => by
    unfold optMapList at h
    injection h with h
    subst h
    exact ⟨rfl, by simp⟩
  | a :: l, ps, h => by
    unfold optMapList at h
    cases hfa : (tableLookup a t).map (fun f => (a, f)) with
    | none =>
      rw [hfa] at h
      exact Option.noConfusion h
    | some b =>
      rw [hfa] at h
      cases hrec : optMapList (fun v => (tableLookup v t).map (fun f => (v, f))) l with
      | none =>
        rw [hrec] at h
        exact Option.noConfusion h
      | some bs =>
        rw [hrec] at h
        dsimp only at h
        injection h with h
        subst h
        obtain ⟨h1, h2⟩ := optMapList_pairs hrec
        obtain ⟨f, hf, rfl⟩ := Option.map_eq_some'.mp hfa
        refine ⟨by simp [h1], ?_⟩
        intro p hp
        rcases List.mem_cons.mp hp with rfl | hp
        · exact hf
        · exact h2 p hp

theorem mem_keyed_unique :
    ∀ {ps : List (String × String)}, (ps.map Prod.fst).Nodup →
      ∀ {p q : String × String}, p ∈ ps → q ∈ ps → p.1 = q.1 → p = q
  | [], _, p, _, hp, _, _ => absurd hp (List.not_mem_nil p)
  | a :: rest, hnd, p, q, hp, hq, he => by
    rw [List.map_cons] at hnd
    obtain ⟨hna, hndr⟩ := List.pairwise_cons.mp hnd
    rcases List.mem_cons.mp hp with hpa | hpr <;> rcases List.mem_cons.mp hq with hqa | hqr
    · rw [hpa, hqa]
    · exfalso
      apply hna q.1 (List.mem_map_of_mem _ hqr)
      rw [← hpa]
      exact he
    · exfalso
      apply hna p.1 (List.mem_map_of_mem _ hpr)
      rw [← hqa]
      exact he.symm
    · exact mem_keyed_unique hndr hpr hqr he

/-- C4 amended: with the front of the pipeline successful and the injector
probe successful, the process completes with exit code 0 and writes the
output file; every resolved short version whose artifact fetch fails at
the transport level (the HTTP collaborator reports an error from `send`
or `bytes`) is excluded from the `overrides` fields and its failure
diagnostic is emitted, while every short version whose fetch returns
bytes contributes its entry — each entry depends only on that version's
own fetch result, so one fetch's failure cannot affect another's outcome.
The HTTP response status is never part of the trigger: the source never
inspects it (see `C4_counterexample`). -/
theorem C4_artifact_failure_isolation (o : Oracles) (args : List String)
    {body : String} {doc : Xml} {nodes : List Xml} {fulls : List String}
    {table : VersionTable} {sorted : List String} {pairs : List (String × String)}
    {u : Unit}
    (h5 : ¬ args.length < 5)
    (hm : o.metadataSend = some (some body))
    (hx : o.parseXml body = some doc)
    (he : extractVersionNodes doc = some nodes)
    (ht : optMapList Xml.textOf nodes = some fulls)
    (hb : buildVersionTable fulls = some table)
    (hkp : (o.keyPerm (tableKeys table)).Perm (tableKeys table))
    (hs : sortAuthlibVersions (o.keyPerm (tableKeys table)) = some sorted)
    (hp : optMapList (fun v => (tableLookup v table).map (fun f => (v, f))) sorted =
      some pairs)
    (hi : o.injectorProbe = .ok u) :
    (runMain o args).exitCode = 0 ∧
    (runMain o args).written = some (args.getD 4 "", o.stringifyPretty
      (finalDoc (overridesFields (pairs.map (collectArtifact o (args.getD 2 ""))))
        (args.getD 3 "")) 2) ∧
    (∀ vf ∈ pairs, ∀ why,
      o.artifactBytes (replaceBraces (args.getD 2 "") vf.2) = .error why →
        (∀ j, (vf.1, j) ∉
          overridesFields (pairs.map (collectArtifact o (args.getD 2 "")))) ∧
        ("Couldn't create library metadata: " ++ why) ∈ (runMain o args).stderr) ∧
    (∀ vf ∈ pairs, ∀ bs,
      o.artifactBytes (replaceBraces (args.getD 2 "") vf.2) = .ok bs →
        (vf.1, libMetaJson
          { target_version := vf.1
            name := "by.ely:authlib:" ++ vf.2
            url := replaceBraces (args.getD 2 "") vf.2
            sha1 := o.sha1hex bs
            size := bs.length }) ∈
          overridesFields (pairs.map (collectArtifact o (args.getD 2 "")))) := by
  have hout := runMain_success_outcome h5 hm hx he ht hb hs hp hi
  have hkeysnd : (tableKeys table).Nodup := buildVersionTable_keys_nodup hb
  have hsortperm : sorted.Perm (o.keyPerm (tableKeys table)) :=
    sortAuthlibVersions_perm hs
  have hsnd : (pairs.map Prod.fst).Nodup := by
    rw [(optMapList_pairs hp).1]
    exact ((hsortperm.trans hkp).symm).nodup hkeysnd
  rw [hout]
  refine ⟨rfl, rfl, ?_, ?_⟩
  · intro vf hvf why hwhy
    have hres : collectArtifact o (args.getD 2 "") vf = .error why := by
      unfold collectArtifact
      dsimp only
      rw [hwhy]
    constructor
    · intro j hj
      unfold overridesFields at hj
      obtain ⟨r, hr, hmr⟩ := List.mem_filterMap.mp hj
      cases r with
      | error e =>
        exact Option.noConfusion hmr
      | ok m =>
        dsimp only at hmr
        injection hmr with hmr
        injection hmr with hm1 hm2
        obtain ⟨vf', hvf', hcoll⟩ := List.mem_map.mp hr
        have htv : m.target_version = vf'.1 := by
          unfold collectArtifact at hcoll
          dsimp only at hcoll
          cases hbytes : o.artifactBytes (replaceBraces (args.getD 2 "") vf'.2) with
          | error e2 =>
            rw [hbytes] at hcoll
            exact Except.noConfusion hcoll
          | ok bs =>
            rw [hbytes] at hcoll
            dsimp only at hcoll
            injection hcoll with hcoll
            rw [← hcoll]
        have hfst2 : vf'.1 = vf.1 := by rw [← htv, hm1]
        have hvfeq : vf' = vf := mem_keyed_unique hsnd hvf' hvf hfst2
        rw [hvfeq, hres] at hcoll
        exact Except.noConfusion hcoll
    · show _ ∈ collectorDiags _
      unfold collectorDiags
      apply List.mem_filterMap.mpr
      exact ⟨Except.error why, List.mem_map.mpr ⟨vf, hvf, hres⟩, rfl⟩
  · intro vf hvf bs hbs
    have hres : collectArtifact o (args.getD 2 "") vf = Except.ok
        { target_version := vf.1
          name := "by.ely:authlib:" ++ vf.2
          url := replaceBraces (args.getD 2 "") vf.2
          sha1 := o.sha1hex bs
          size := bs.length } := by
      unfold collectArtifact
      dsimp only
      rw [hbs]
    unfold overridesFields
    apply List.mem_filterMap.mpr
    exact ⟨_, List.mem_map.mpr ⟨vf, hvf, hres⟩, rfl⟩

/-- C6: with the pipeline and the injector probe successful, the document
serialized (with the pretty-printer at 2-space indent) to the
caller-specified output path is a JSON object whose `overrides` section is
keyed by `"com.mojang:authlib"` and holds the per-version fields, and
whose `extras.authlib-injector` holds the literal injector URL; each
successful short version's entry carries the name
`"by.ely:authlib:<fullVersion>"`, the URL obtained by substituting the
full version into the template's placeholder, the digest of the fetched
bytes, and their byte length. -/
theorem C6_output_document_shape (o : Oracles) (args : List String)
    {body : String} {doc : Xml} {nodes : List Xml} {fulls : List String}
    {table : VersionTable} {sorted : List String} {pairs : List (String × String)}
    {u : Unit}
    (h5 : ¬ args.length < 5)
    (hm : o.metadataSend = some (some body))
    (hx : o.parseXml body = some doc)
    (he : extractVersionNodes doc = some nodes)
    (ht : optMapList Xml.textOf nodes = some fulls)
    (hb : buildVersionTable fulls = some table)
    (hs : sortAuthlibVersions (o.keyPerm (tableKeys table)) = some sorted)
    (hp : optMapList (fun v => (tableLookup v table).map (fun f => (v, f))) sorted =
      some pairs)
    (hi : o.injectorProbe = .ok u) :
    (runMain o args).document = some (Json.obj
      [("overrides", Json.obj [("com.mojang:authlib",
          Json.obj (overridesFields (pairs.map (collectArtifact o (args.getD 2 "")))))]),
       ("extras", Json.obj [("authlib-injector", Json.str (args.getD 3 ""))])]) ∧
    (runMain o args).written = some (args.getD 4 "", o.stringifyPretty
      (finalDoc (overridesFields (pairs.map (collectArtifact o (args.getD 2 ""))))
        (args.getD 3 "")) 2) ∧
    (∀ vf ∈ pairs, ∀ bs,
      o.artifactBytes (replaceBraces (args.getD 2 "") vf.2) = .ok bs →
        (vf.1, Json.obj
          [("name", Json.str ("by.ely:authlib:" ++ vf.2)),
           ("url", Json.str (replaceBraces (args.getD 2 "") vf.2)),
           ("sha1", Json.str (o.sha1hex bs)),
           ("size", Json.num bs.length)]) ∈
          overridesFields (pairs.map (collectArtifact o (args.getD 2 "")))) := by
  have hout := runMain_success_outcome h5 hm hx he ht hb hs hp hi
  rw [hout]
  refine ⟨rfl, rfl, ?_⟩
  intro vf hvf bs hbs
  have hres : collectArtifact o (args.getD 2 "") vf = Except.ok
      { target_version := vf.1
        name := "by.ely:authlib:" ++ vf.2
        url := replaceBraces (args.getD 2 "") vf.2
        sha1 := o.sha1hex bs
        size := bs.length } := by
    unfold collectArtifact
    dsimp only
    rw [hbs]
  unfold overridesFields
  apply List.mem_filterMap.mpr
  exact ⟨_, List.mem_map.mpr ⟨vf, hvf, hres⟩, rfl⟩

/-- Witness for C4 on the concrete oracle: `"1.0.0"`'s fetch fails with
`"boom"` and is excluded, while the run completes with exit code 0 and
the diagnostic is emitted. -/
theorem C4_artifact_failure_isolation_witness :
    (runMain oracleOk sampleArgs).exitCode = 0 ∧
    ("Couldn't create library metadata: " ++ "boom") ∈
      (runMain oracleOk sampleArgs).stderr ∧
    (∀ j, ("1.0.0", j) ∉ overridesFields
      (([("2.0.0", "2.0.0"), ("1.0.0", "1.0.0")] : List (String × String)).map
        (collectArtifact oracleOk (sampleArgs.getD 2 "")))) := by
  have h := C4_artifact_failure_isolation oracleOk sampleArgs (by decide)
    rfl rfl rfl rfl rfl (List.Perm.refl _) rfl rfl rfl
  exact ⟨h.1, (h.2.2.1 ("1.0.0", "1.0.0") (by decide) "boom" rfl).2,
    fun j => (h.2.2.1 ("1.0.0", "1.0.0") (by decide) "boom" rfl).1 j⟩

/-- Witness for C6 on the concrete oracle: the document shape and the
`"2.0.0"` entry. -/
theorem C6_output_document_shape_witness :
    (runMain oracleOk sampleArgs).document = some (Json.obj
      [("overrides", Json.obj [("com.mojang:authlib",
          Json.obj (overridesFields
            (([("2.0.0", "2.0.0"), ("1.0.0", "1.0.0")] : List (String × String)).map
              (collectArtifact oracleOk (sampleArgs.getD 2 "")))))]),
       ("extras", Json.obj [("authlib-injector", Json.str (sampleArgs.getD 3 ""))])]) ∧
    ("2.0.0", Json.obj
      [("name", Json.str ("by.ely:authlib:" ++ "2.0.0")),
       ("url", Json.str (replaceBraces (sampleArgs.getD 2 "") "2.0.0")),
       ("sha1", Json.str (oracleOk.sha1hex [7, 8])),
       ("size", Json.num (([7, 8] : List Nat)).length)]) ∈
      overridesFields
        (([("2.0.0", "2.0.0"), ("1.0.0", "1.0.0")] : List (String × String)).map
          (collectArtifact oracleOk (sampleArgs.getD 2 ""))) := by
  have h := C6_output_document_shape oracleOk sampleArgs (by decide)
    rfl rfl rfl rfl rfl rfl rfl rfl
  exact ⟨h.1, h.2.2 ("2.0.0", "2.0.0") (by decide) [7, 8] rfl⟩

/-- C4 counterexample: a non-success HTTP status is not a failure that
triggers exclusion.  In the concrete run in which `"1.0.0"`'s artifact
request returns a 404-style response (an `Ok` fetch of the error page's
bytes `[52, 48, 52]`, since the code never checks the status), the short
version `"1.0.0"` is NOT excluded from `overrides` — its entry appears
with the digest and byte length of the error page — no diagnostic is
emitted at all, and the file is written, refuting the claim's
exclusion-plus-diagnostic conclusion for the non-success-status failure
mode. -/
theorem C4_counterexample :
    (runMain oracleNotFound sampleArgs).document = some (Json.obj
      [("overrides", Json.obj [("com.mojang:authlib", Json.obj
        [("2.0.0", Json.obj
          [("name", Json.str "by.ely:authlib:2.0.0"),
           ("url", Json.str "u/2.0.0.jar"),
           ("sha1", Json.str "deadbeef"),
           ("size", Json.num 2)]),
         ("1.0.0", Json.obj
          [("name", Json.str "by.ely:authlib:1.0.0"),
           ("url", Json.str "u/1.0.0.jar"),
           ("sha1", Json.str "deadbeef"),
           ("size", Json.num 3)])])]),
       ("extras", Json.obj [("authlib-injector", Json.str "http://inj")])]) ∧
    (runMain oracleNotFound sampleArgs).stderr = [] ∧
    (runMain oracleNotFound sampleArgs).exitCode = 0 ∧
    (runMain oracleNotFound sampleArgs).written = some ("out.json", "serialized") :=
  ⟨rfl, rfl, rfl, rfl⟩
